import Mathlib

/-!
Verification of the page-selection parser of the pdf-merger repository.

The function under study is `parsePageSelection(input, totalPages)` from the
source file defining the page-range parser.  It interprets a user-typed page
selection string ("1-3,5,7", "*", ...) against a known page count and returns
a record `{ pages, error }` with 0-based page indices.

Embedding conventions:
* JavaScript strings are modelled as Lean `String` (a list of characters);
  the character-level work happens on `List Char`.
* `totalPages` is a JavaScript number holding an integer; it is modelled as
  `Int`.  The JavaScript truthiness test `!totalPages` is false exactly for
  the number 0 among integers, so it becomes `totalPages = 0`.
  `Array.from {length: totalPages}` clamps a negative length to 0, hence
  `List.range totalPages.toNat`.
* The JavaScript `Set` with insertion order is modelled as a duplicate-free
  list (`setAdd` appends only unseen elements); `Array.from(set).sort((a,b)=>a-b)`
  becomes an insertion sort by `≤`.
* The regexes `^\d+$` and `^(\d+)-(\d+)$` are modelled by explicit character
  tests: `\d` is exactly the ASCII digits, and the range regex matches exactly
  the strings with a single dash separating two nonempty digit runs.
-/

/-- Characters matched by the JavaScript whitespace class `\s` (which is also
exactly the set removed by `String.prototype.trim`). -/
def isWS (c : Char) : Bool :=
  c = ' ' || c = '\t' || c = '\n' || c = '\r' || c = '\x0b' || c = '\x0c' ||
  c = '\u00A0' || c = '\u1680' || ('\u2000' ≤ c && c ≤ '\u200A') ||
  c = '\u2028' || c = '\u2029' || c = '\u202F' || c = '\u205F' ||
  c = '\u3000' || c = '\uFEFF'

/-- Model of `str.trim()`: drop leading and trailing whitespace. -/
def trimChars (l : List Char) : List Char :=
  ((l.dropWhile isWS).reverse.dropWhile isWS).reverse

/-- Model of `str.replace(/\s+/g, '')`: drop every whitespace character. -/
def removeWsChars (l : List Char) : List Char :=
  l.filter (fun c => !isWS c)

/-- Model of `str.split(sep)` for a one-character separator: splitting the
empty string yields `[""]`, and consecutive separators yield empty pieces. -/
def splitOnChar (sep : Char) : List Char → List (List Char)
  | [] => [[]]
  | c :: rest =>
    if c = sep then [] :: splitOnChar sep rest
    else
      match splitOnChar sep rest with
      | [] => [[c]]
      | s :: ss => (c :: s) :: ss

/-- The JavaScript digit class `\d`, i.e. the ASCII digits 0-9. -/
def isDigitChar (c : Char) : Bool :=
  '0' ≤ c && c ≤ '9'

/-- Whether a segment matches the regex `^\d+$`: nonempty and all digits. -/
def isDigitsSeg (seg : List Char) : Bool :=
  !seg.isEmpty && seg.all isDigitChar

/-- Value of `parseInt(seg, 10)` on a string of decimal digits. -/
def digitsToNat (seg : List Char) : Nat :=
  seg.foldl (fun n c => n * 10 + (c.toNat - '0'.toNat)) 0

/-- Match of the regex `^(\d+)-(\d+)$`: the segment must consist of a nonempty
digit run, a single dash, and a second nonempty digit run; the two captured
groups are returned. -/
def rangeSplit (seg : List Char) : Option (List Char × List Char) :=
  match splitOnChar '-' seg with
  | [a, b] => if isDigitsSeg a && isDigitsSeg b then some (a, b) else none
  | _ => none

/-- Result record `{ pages, error }` of `parsePageSelection`. -/
structure ParseResult where
  pages : List Nat
  error : Option String
deriving DecidableEq, Repr

/-- Model of `Set.prototype.add` on an insertion-ordered duplicate-free list. -/
def setAdd (s : List Nat) (x : Nat) : List Nat :=
  if x ∈ s then s else s ++ [x]

/-- Model of the loop `for (page = start; page <= end; page += 1) set.add(page - 1)`. -/
def rangeAdd (s : List Nat) (start e : Nat) : List Nat :=
  (List.range' start (e + 1 - start)).foldl (fun acc p => setAdd acc (p - 1)) s

/-- Model of `Array.from(set).sort((a, b) => a - b)`: ascending numeric sort. -/
def sortPages (s : List Nat) : List Nat :=
  List.insertionSort (· ≤ ·) s

/-- The `for (const segment of segments)` loop of `parsePageSelection`,
together with the two return statements that follow it.  `acc` is the
accumulated page set. -/
def processSegments (totalPages : Int) : List (List Char) → List Nat → ParseResult
  | [], acc =>
    if acc.length = 0 then ⟨[], some "No valid pages selected"⟩
    else ⟨sortPages acc, none⟩
  | seg :: rest, acc =>
    if isDigitsSeg seg then
      let pageNumber := digitsToNat seg
      if pageNumber < 1 ∨ (pageNumber : Int) > totalPages then
        ⟨[], some ("Page " ++ toString pageNumber ++ " is out of bounds")⟩
      else
        processSegments totalPages rest (setAdd acc (pageNumber - 1))
    else
      match rangeSplit seg with
      | some (a, b) =>
        let start := digitsToNat a
        let e := digitsToNat b
        if start > e then
          ⟨[], some ("Range " ++ seg.asString ++ " is invalid (start greater than end)")⟩
        else if start < 1 ∨ (e : Int) > totalPages then
          ⟨[], some ("Range " ++ seg.asString ++ " is out of bounds")⟩
        else
          processSegments totalPages rest (rangeAdd acc start e)
      | none =>
        ⟨[], some ("\x22" ++ seg.asString ++ "\x22 is not a valid page or range")⟩

/-- Segments obtained from a cleaned (whitespace-free) input:
`cleanedInput.split(',').filter(Boolean)`. -/
def segmentsOfCleaned (cleaned : List Char) : List (List Char) :=
  (splitOnChar ',' cleaned).filter (fun s => !s.isEmpty)

/-- Segments the parser derives from the raw input string. -/
def segmentsOf (input : String) : List (List Char) :=
  segmentsOfCleaned (removeWsChars input.data)

/-- Model of `parsePageSelection(input, totalPages)`. -/
def parsePageSelection (input : String) (totalPages : Int) : ParseResult :=
  if totalPages = 0 then
    ⟨[], some "Unknown page count"⟩
  else if input.data = [] ∨ trimChars input.data = [] ∨ trimChars input.data = ['*'] then
    ⟨List.range totalPages.toNat, none⟩
  else
    let segments := segmentsOf input
    if segments = [] then
      ⟨[], some "Enter at least one page number or range"⟩
    else
      processSegments totalPages segments []

/-- Pages (0-based) denoted by one well-formed segment. -/
def segPages (seg : List Char) : List Nat :=
  if isDigitsSeg seg then
    [digitsToNat seg - 1]
  else
    match rangeSplit seg with
    | some (a, b) =>
      (List.range' (digitsToNat a) (digitsToNat b + 1 - digitsToNat a)).map (fun p => p - 1)
    | none => []

/-- A segment is well-formed when it is a single page number inside
`[1, totalPages]`, or a range `start-end` with `1 ≤ start ≤ end ≤ totalPages`. -/
def wellFormedSeg (totalPages : Int) (seg : List Char) : Bool :=
  if isDigitsSeg seg then
    decide (1 ≤ digitsToNat seg) && decide ((digitsToNat seg : Int) ≤ totalPages)
  else
    match rangeSplit seg with
    | some (a, b) =>
      decide (digitsToNat a ≤ digitsToNat b) && decide (1 ≤ digitsToNat a) &&
        decide ((digitsToNat b : Int) ≤ totalPages)
    | none => false

/-- Error message the parser produces for an ill-formed segment. -/
def segError (seg : List Char) : String :=
  if isDigitsSeg seg then
    "Page " ++ toString (digitsToNat seg) ++ " is out of bounds"
  else
    match rangeSplit seg with
    | some (a, b) =>
      if digitsToNat a > digitsToNat b then
        "Range " ++ seg.asString ++ " is invalid (start greater than end)"
      else
        "Range " ++ seg.asString ++ " is out of bounds"
    | none =>
      "\x22" ++ seg.asString ++ "\x22 is not a valid page or range"

/-- Inverse of splitting: gluing the pieces with the separator restores the list. -/
def joinSep (sep : Char) : List (List Char) → List Char
  | [] => []
  | [s] => s
  | s :: ss => s ++ sep :: joinSep sep ss

/-- Effect of one accepted segment on the accumulated page set. -/
def addSeg (acc : List Nat) (seg : List Char) : List Nat :=
  (segPages seg).foldl setAdd acc

example : parsePageSelection "1-3,5,7" 10 = ⟨[0, 1, 2, 4, 6], none⟩ := by decide
example : parsePageSelection "" 3 = ⟨[0, 1, 2], none⟩ := by decide
example : parsePageSelection "*" 3 = ⟨[0, 1, 2], none⟩ := by decide
example : parsePageSelection " * " 3 = ⟨[0, 1, 2], none⟩ := by decide
example : parsePageSelection "abc" 5 =
    ⟨[], some "\x22abc\x22 is not a valid page or range"⟩ := by decide
example : parsePageSelection "3-1" 10 =
    ⟨[], some "Range 3-1 is invalid (start greater than end)"⟩ := by decide
example : parsePageSelection "0" 5 = ⟨[], some "Page 0 is out of bounds"⟩ := by decide
example : parsePageSelection "11" 10 = ⟨[], some "Page 11 is out of bounds"⟩ := by decide
example : parsePageSelection "1,1,1-2" 5 = ⟨[0, 1], none⟩ := by decide
example : parsePageSelection "5,1-2" 10 = ⟨[0, 1, 4], none⟩ := by decide
example : parsePageSelection "x" 0 = ⟨[], some "Unknown page count"⟩ := by decide
example : parsePageSelection "1" (-1) = ⟨[], some "Page 1 is out of bounds"⟩ := by decide
example : parsePageSelection "," 5 =
    ⟨[], some "Enter at least one page number or range"⟩ := by decide
example : parsePageSelection "007" 10 = ⟨[6], none⟩ := by decide
example : parsePageSelection "01-03" 10 = ⟨[0, 1, 2], none⟩ := by decide
example : parsePageSelection "1 2" 15 = ⟨[11], none⟩ := by decide
example : parsePageSelection "12-3" 10 =
    ⟨[], some "Range 12-3 is invalid (start greater than end)"⟩ := by decide

/-! Basic facts about `splitOnChar` and segment shapes. -/

theorem splitOnChar_ne_nil (sep : Char) : ∀ l, splitOnChar sep l ≠ []
  | [] => by simp [splitOnChar]
  | c :: rest => by
    simp only [splitOnChar]
    split
    · exact List.cons_ne_nil _ _
    · split
      · exact List.cons_ne_nil _ _
      · exact List.cons_ne_nil _ _

theorem splitOnChar_append (sep : Char) (a rest : List Char) (ha : ∀ c ∈ a, c ≠ sep) :
    splitOnChar sep (a ++ sep :: rest) = a :: splitOnChar sep rest := by
  induction a with
  | nil => simp [splitOnChar]
  | cons c a ih =>
    have hc : c ≠ sep := ha c (by simp)
    have ih2 := ih (fun x hx => ha x (by simp [hx]))
    simp only [List.cons_append, splitOnChar, if_neg hc, List.append_eq, ih2]

theorem splitOnChar_of_noSep (sep : Char) (l : List Char) (h : ∀ c ∈ l, c ≠ sep) :
    splitOnChar sep l = [l] := by
  induction l with
  | nil => simp [splitOnChar]
  | cons c rest ih =>
    have hc : c ≠ sep := h c (by simp)
    have ih2 := ih (fun x hx => h x (by simp [hx]))
    simp only [splitOnChar, if_neg hc, ih2]

theorem joinSep_splitOnChar (sep : Char) : ∀ l, joinSep sep (splitOnChar sep l) = l
  | [] => rfl
  | c :: rest => by
    have ih := joinSep_splitOnChar sep rest
    by_cases hc : c = sep
    · subst hc
      simp only [splitOnChar, if_pos rfl]
      cases h : splitOnChar c rest with
      | nil => exact absurd h (splitOnChar_ne_nil c rest)
      | cons s ss =>
        rw [h] at ih
        simp [joinSep, ih]
    · simp only [splitOnChar, if_neg hc]
      cases h : splitOnChar sep rest with
      | nil => exact absurd h (splitOnChar_ne_nil sep rest)
      | cons s ss =>
        rw [h] at ih
        cases ss with
        | nil =>
          simp only [joinSep] at ih ⊢
          rw [ih]
        | cons s2 ss2 =>
          simp only [joinSep] at ih ⊢
          rw [← ih]
          simp

theorem isDigitChar_iff (c : Char) : isDigitChar c = true ↔ '0' ≤ c ∧ c ≤ '9' := by
  simp [isDigitChar]

theorem isDigitsSeg_iff (seg : List Char) :
    isDigitsSeg seg = true ↔ seg ≠ [] ∧ ∀ c ∈ seg, isDigitChar c = true := by
  simp [isDigitsSeg, List.isEmpty_iff, List.all_eq_true]

theorem digits_ne_sep (seg : List Char) (sep : Char) (h : isDigitsSeg seg = true)
    (hlt : sep < '0') : ∀ c ∈ seg, c ≠ sep := by
  intro c hc hceq
  subst hceq
  have hd := ((isDigitsSeg_iff seg).mp h).2 c hc
  have h0 := ((isDigitChar_iff c).mp hd).1
  exact absurd h0 (not_le.mpr hlt)

theorem rangeSplit_append (a b : List Char) (ha : isDigitsSeg a = true)
    (hb : isDigitsSeg b = true) : rangeSplit (a ++ '-' :: b) = some (a, b) := by
  have hsplit : splitOnChar '-' (a ++ '-' :: b) = a :: splitOnChar '-' b :=
    splitOnChar_append '-' a b (digits_ne_sep a '-' ha (by decide))
  have hb2 : splitOnChar '-' b = [b] :=
    splitOnChar_of_noSep '-' b (digits_ne_sep b '-' hb (by decide))
  simp [rangeSplit, hsplit, hb2, ha, hb]

theorem rangeSplit_some (seg a b : List Char) (h : rangeSplit seg = some (a, b)) :
    seg = a ++ '-' :: b ∧ isDigitsSeg a = true ∧ isDigitsSeg b = true := by
  unfold rangeSplit at h
  split at h
  · next x y heq =>
    split at h
    · next hd =>
      simp only [Option.some.injEq, Prod.mk.injEq] at h
      obtain ⟨rfl, rfl⟩ := h
      have hseg : seg = joinSep '-' [x, y] := by
        rw [← heq, joinSep_splitOnChar]
      rw [Bool.and_eq_true] at hd
      exact ⟨by simpa [joinSep] using hseg, hd.1, hd.2⟩
    · exact absurd h (by simp)
  · exact absurd h (by simp)

/-! Facts about the page-set accumulator and the final sort. -/

theorem mem_setAdd (s : List Nat) (x y : Nat) : y ∈ setAdd s x ↔ y ∈ s ∨ y = x := by
  unfold setAdd
  split
  · next h =>
    constructor
    · exact Or.inl
    · rintro (hy | rfl)
      exacts [hy, h]
  · simp

theorem setAdd_ne_nil (s : List Nat) (x : Nat) : setAdd s x ≠ [] := by
  unfold setAdd
  split
  · next h => exact List.ne_nil_of_mem h
  · simp

theorem nodup_setAdd (s : List Nat) (x : Nat) (h : s.Nodup) : (setAdd s x).Nodup := by
  unfold setAdd
  split
  · exact h
  · next hx =>
    simp [List.nodup_append, h, hx]

theorem foldl_setAdd_ne_nil (l : List Nat) (s : List Nat) (h : s ≠ []) :
    l.foldl setAdd s ≠ [] := by
  induction l generalizing s with
  | nil => exact h
  | cons y l ih => exact ih (setAdd s y) (setAdd_ne_nil s y)

theorem foldl_setAdd_ne_nil_of_ne (l : List Nat) (s : List Nat) (h : l ≠ []) :
    l.foldl setAdd s ≠ [] := by
  cases l with
  | nil => exact absurd rfl h
  | cons y l => exact foldl_setAdd_ne_nil l (setAdd s y) (setAdd_ne_nil s y)

theorem mem_foldl_setAdd (l : List Nat) (s : List Nat) (x : Nat) :
    x ∈ l.foldl setAdd s ↔ x ∈ s ∨ x ∈ l := by
  induction l generalizing s with
  | nil => simp
  | cons y l ih =>
    rw [List.foldl_cons, ih, mem_setAdd]
    simp [or_assoc, eq_comm]

theorem nodup_foldl_setAdd (l : List Nat) (s : List Nat) (h : s.Nodup) :
    (l.foldl setAdd s).Nodup := by
  induction l generalizing s with
  | nil => exact h
  | cons y l ih => exact ih (setAdd s y) (nodup_setAdd s y h)

theorem mem_sortPages (s : List Nat) (x : Nat) : x ∈ sortPages s ↔ x ∈ s :=
  (List.perm_insertionSort (· ≤ ·) s).mem_iff

theorem sortPages_eq_nil_iff (s : List Nat) : sortPages s = [] ↔ s = [] := by
  constructor
  · intro h
    have hp := List.perm_insertionSort (· ≤ ·) s
    rw [sortPages] at h
    rw [h] at hp
    exact (hp.symm).eq_nil
  · intro h
    rw [h]
    rfl

theorem sorted_lt_sortPages (s : List Nat) (h : s.Nodup) :
    (sortPages s).Sorted (· < ·) := by
  have hs : (sortPages s).Sorted (· ≤ ·) := List.sorted_insertionSort (· ≤ ·) s
  have hn : (sortPages s).Nodup := ((List.perm_insertionSort (· ≤ ·) s).nodup_iff).mpr h
  exact (hs.and hn).imp fun hab => lt_of_le_of_ne hab.1 hab.2

theorem rangeAdd_eq_foldl (s : List Nat) (a b : Nat) :
    rangeAdd s a b = ((List.range' a (b + 1 - a)).map (fun p => p - 1)).foldl setAdd s := by
  rw [List.foldl_map]
  rfl

/-! Behaviour of the segment loop. -/

theorem wellFormedSeg_digits_iff (tp : Int) (seg : List Char) (hd : isDigitsSeg seg = true) :
    wellFormedSeg tp seg = true ↔
      1 ≤ digitsToNat seg ∧ (digitsToNat seg : Int) ≤ tp := by
  simp [wellFormedSeg, hd]

theorem wellFormedSeg_range_iff (tp : Int) (seg a b : List Char)
    (hd : isDigitsSeg seg = false) (hr : rangeSplit seg = some (a, b)) :
    wellFormedSeg tp seg = true ↔
      digitsToNat a ≤ digitsToNat b ∧ 1 ≤ digitsToNat a ∧ (digitsToNat b : Int) ≤ tp := by
  simp [wellFormedSeg, hd, hr, and_assoc]

theorem wellFormedSeg_malformed (tp : Int) (seg : List Char)
    (hd : isDigitsSeg seg = false) (hr : rangeSplit seg = none) :
    wellFormedSeg tp seg = false := by
  simp [wellFormedSeg, hd, hr]

theorem processSegments_cons_valid (tp : Int) (seg : List Char) (rest : List (List Char))
    (acc : List Nat) (h : wellFormedSeg tp seg = true) :
    processSegments tp (seg :: rest) acc = processSegments tp rest (addSeg acc seg) := by
  by_cases hd : isDigitsSeg seg = true
  · have hw := (wellFormedSeg_digits_iff tp seg hd).mp h
    have hcond : ¬(digitsToNat seg < 1 ∨ (digitsToNat seg : Int) > tp) := by
      push_neg
      exact ⟨hw.1, hw.2⟩
    simp only [processSegments, hd, if_true, if_neg hcond]
    congr 1
    simp [addSeg, segPages, hd]
  · rw [Bool.not_eq_true] at hd
    cases hr : rangeSplit seg with
    | none =>
      rw [wellFormedSeg_malformed tp seg hd hr] at h
      exact absurd h (by simp)
    | some ab =>
      obtain ⟨a, b⟩ := ab
      have hw := (wellFormedSeg_range_iff tp seg a b hd hr).mp h
      have hcond : ¬(digitsToNat a < 1 ∨ (digitsToNat b : Int) > tp) := by
        push_neg
        exact ⟨hw.2.1, hw.2.2⟩
      simp only [processSegments, hd, Bool.false_eq_true, if_false, hr,
        if_neg (not_lt.mpr hw.1), if_neg hcond]
      congr 1
      rw [addSeg]
      simp only [segPages, hd, Bool.false_eq_true, if_false, hr]
      exact rangeAdd_eq_foldl acc (digitsToNat a) (digitsToNat b)
      -- the accumulated set after a range segment is the fold over its pages

theorem processSegments_cons_invalid (tp : Int) (seg : List Char) (rest : List (List Char))
    (acc : List Nat) (h : wellFormedSeg tp seg = false) :
    processSegments tp (seg :: rest) acc = ⟨[], some (segError seg)⟩ := by
  by_cases hd : isDigitsSeg seg = true
  · have hw : ¬(1 ≤ digitsToNat seg ∧ (digitsToNat seg : Int) ≤ tp) := by
      rw [← wellFormedSeg_digits_iff tp seg hd, h]
      simp
    have hcond : digitsToNat seg < 1 ∨ (digitsToNat seg : Int) > tp := by
      rcases not_and_or.mp hw with h1 | h2
      · exact Or.inl (not_le.mp h1)
      · exact Or.inr (not_le.mp h2)
    simp only [processSegments, hd, if_true, if_pos hcond]
    simp [segError, hd]
  · rw [Bool.not_eq_true] at hd
    cases hr : rangeSplit seg with
    | none =>
      simp only [processSegments, hd, Bool.false_eq_true, if_false, hr]
      simp [segError, hd, hr]
    | some ab =>
      obtain ⟨a, b⟩ := ab
      have hw : ¬(digitsToNat a ≤ digitsToNat b ∧ 1 ≤ digitsToNat a ∧
          (digitsToNat b : Int) ≤ tp) := by
        rw [← wellFormedSeg_range_iff tp seg a b hd hr, h]
        simp
      by_cases hab : digitsToNat a > digitsToNat b
      · simp only [processSegments, hd, Bool.false_eq_true, if_false, hr, if_pos hab]
        simp [segError, hd, hr, hab]
      · have hcond : digitsToNat a < 1 ∨ (digitsToNat b : Int) > tp := by
        -- with the order check passed, ill-formedness must be a bounds violation
          rcases not_and_or.mp hw with h1 | h2
          · exact absurd (not_lt.mp hab) h1
          · rcases not_and_or.mp h2 with h3 | h4
            · exact Or.inl (not_le.mp h3)
            · exact Or.inr (not_le.mp h4)
        simp only [processSegments, hd, Bool.false_eq_true, if_false, hr, if_neg hab,
          if_pos hcond]
        simp [segError, hd, hr, hab]

theorem processSegments_all_valid (tp : Int) (segs : List (List Char)) (acc : List Nat)
    (h : ∀ s ∈ segs, wellFormedSeg tp s = true) :
    processSegments tp segs acc = processSegments tp [] (segs.foldl addSeg acc) := by
  induction segs generalizing acc with
  | nil => rfl
  | cons seg rest ih =>
    rw [processSegments_cons_valid tp seg rest acc (h seg (by simp)), List.foldl_cons]
    exact ih (addSeg acc seg) (fun s hs => h s (by simp [hs]))

theorem processSegments_first_invalid (tp : Int) (good : List (List Char))
    (bad : List Char) (rest : List (List Char)) (acc : List Nat)
    (hg : ∀ s ∈ good, wellFormedSeg tp s = true) (hb : wellFormedSeg tp bad = false) :
    processSegments tp (good ++ bad :: rest) acc = ⟨[], some (segError bad)⟩ := by
  induction good generalizing acc with
  | nil => exact processSegments_cons_invalid tp bad rest acc hb
  | cons g good ih =>
    rw [List.cons_append, processSegments_cons_valid tp g _ acc (hg g (by simp))]
    exact ih (addSeg acc g) (fun s hs => hg s (by simp [hs]))

theorem segPages_ne_nil (tp : Int) (seg : List Char) (h : wellFormedSeg tp seg = true) :
    segPages seg ≠ [] := by
  by_cases hd : isDigitsSeg seg = true
  · simp [segPages, hd]
  · rw [Bool.not_eq_true] at hd
    cases hr : rangeSplit seg with
    | none =>
      rw [wellFormedSeg_malformed tp seg hd hr] at h
      exact absurd h (by simp)
    | some ab =>
      obtain ⟨a, b⟩ := ab
      have hw := (wellFormedSeg_range_iff tp seg a b hd hr).mp h
      simp only [segPages, hd, Bool.false_eq_true, if_false, hr]
      simp only [ne_eq, List.map_eq_nil_iff]
      rw [List.range'_eq_nil]
      omega

theorem addSeg_ne_nil (tp : Int) (acc : List Nat) (seg : List Char)
    (h : wellFormedSeg tp seg = true) : addSeg acc seg ≠ [] :=
  foldl_setAdd_ne_nil_of_ne (segPages seg) acc (segPages_ne_nil tp seg h)

theorem addSeg_ne_nil_of_acc (acc : List Nat) (seg : List Char) (h : acc ≠ []) :
    addSeg acc seg ≠ [] :=
  foldl_setAdd_ne_nil (segPages seg) acc h

theorem foldl_addSeg_ne_nil (segs : List (List Char)) (acc : List Nat) (h : acc ≠ []) :
    segs.foldl addSeg acc ≠ [] := by
  induction segs generalizing acc with
  | nil => exact h
  | cons s segs ih => exact ih (addSeg acc s) (addSeg_ne_nil_of_acc acc s h)

theorem mem_foldl_addSeg (segs : List (List Char)) (acc : List Nat) (x : Nat) :
    x ∈ segs.foldl addSeg acc ↔ x ∈ acc ∨ ∃ s ∈ segs, x ∈ segPages s := by
  induction segs generalizing acc with
  | nil => simp
  | cons s segs ih =>
    rw [List.foldl_cons, ih, addSeg, mem_foldl_setAdd]
    simp [or_assoc]

theorem nodup_foldl_addSeg (segs : List (List Char)) (acc : List Nat) (h : acc.Nodup) :
    (segs.foldl addSeg acc).Nodup := by
  induction segs generalizing acc with
  | nil => exact h
  | cons s segs ih => exact ih (addSeg acc s) (nodup_foldl_setAdd (segPages s) acc h)

/-! Whitespace facts: interaction of `trimChars` and `removeWsChars`. -/

theorem removeWsChars_dropWhile (l : List Char) :
    removeWsChars (l.dropWhile isWS) = removeWsChars l := by
  induction l with
  | nil => rfl
  | cons c l ih =>
    by_cases hc : isWS c = true
    · rw [List.dropWhile_cons_of_pos hc, ih]
      simp [removeWsChars, hc]
    · rw [Bool.not_eq_true] at hc
      rw [List.dropWhile_cons_of_neg (by simp [hc])]

theorem removeWsChars_reverse (l : List Char) :
    removeWsChars l.reverse = (removeWsChars l).reverse := by
  simp [removeWsChars, List.filter_reverse]

theorem removeWsChars_trimChars (l : List Char) :
    removeWsChars (trimChars l) = removeWsChars l := by
  rw [trimChars, removeWsChars_reverse, removeWsChars_dropWhile, removeWsChars_reverse,
    List.reverse_reverse, removeWsChars_dropWhile]

theorem removeWsChars_eq_nil_iff (l : List Char) :
    removeWsChars l = [] ↔ ∀ c ∈ l, isWS c = true := by
  rw [removeWsChars, List.filter_eq_nil_iff]
  simp

theorem dropWhile_eq_self_of_none (p : Char → Bool) (l : List Char)
    (h : ∀ c ∈ l, p c = false) : l.dropWhile p = l := by
  cases l with
  | nil => rfl
  | cons c l => exact List.dropWhile_cons_of_neg (by simp [h c (by simp)])

theorem trimChars_of_noWs (l : List Char) (h : ∀ c ∈ l, isWS c = false) :
    trimChars l = l := by
  rw [trimChars, dropWhile_eq_self_of_none isWS l h,
    dropWhile_eq_self_of_none isWS l.reverse (by simpa using h), List.reverse_reverse]

theorem trimChars_eq_nil_iff (l : List Char) :
    trimChars l = [] ↔ removeWsChars l = [] := by
  constructor
  · intro h
    rw [← removeWsChars_trimChars, h]
    rfl
  · intro h
    rw [removeWsChars_eq_nil_iff] at h
    rw [trimChars, List.dropWhile_eq_nil_iff.mpr (fun c hc => h c hc)]
    rfl

theorem dropWhile_append_of_all (p : Char → Bool) (xs ys : List Char)
    (h : ∀ c ∈ xs, p c = true) : (xs ++ ys).dropWhile p = ys.dropWhile p := by
  induction xs with
  | nil => rfl
  | cons c xs ih =>
    rw [List.cons_append, List.dropWhile_cons_of_pos (h c (by simp))]
    exact ih (fun x hx => h x (by simp [hx]))

theorem dropWhile_head_false (p : Char → Bool) (l : List Char) (c : Char) (rest : List Char)
    (h : l.dropWhile p = c :: rest) : p c = false := by
  induction l with
  | nil => simp at h
  | cons d l ih =>
    by_cases hd : p d = true
    · rw [List.dropWhile_cons_of_pos hd] at h
      exact ih h
    · rw [Bool.not_eq_true] at hd
      rw [List.dropWhile_cons_of_neg (by simp [hd])] at h
      cases h
      exact hd

theorem trimChars_eq_star_iff (l : List Char) :
    trimChars l = ['*'] ↔ removeWsChars l = ['*'] := by
  constructor
  · intro h
    rw [← removeWsChars_trimChars, h]
    rfl
  · intro h
    have h1 : removeWsChars (l.dropWhile isWS) = ['*'] := by
      rw [removeWsChars_dropWhile, h]
    cases hu : l.dropWhile isWS with
    | nil => rw [hu] at h1; exact absurd h1 (by simp [removeWsChars])
    | cons c u2 =>
      have hc : isWS c = false := dropWhile_head_false isWS l c u2 hu
      rw [hu] at h1
      rw [removeWsChars, List.filter_cons_of_pos (by simp [hc])] at h1
      have hcstar : c = '*' := by
        injection h1 with h1a h1b
      have hu2 : ∀ x ∈ u2, isWS x = true := by
        injection h1 with h1a h1b
        intro x hx
        have := (removeWsChars_eq_nil_iff u2).mp h1b
        exact this x hx
      rw [trimChars, hu, List.reverse_cons,
        dropWhile_append_of_all isWS u2.reverse [c] (by simpa using hu2)]
      rw [List.dropWhile_cons_of_neg (by simp [hc])]
      simp [hcstar]

/-! Path analysis for `parsePageSelection`. -/

theorem segmentsOfCleaned_nil : segmentsOfCleaned [] = [] := rfl

theorem removeWs_ne_nil_of_segments (input : String) (h : segmentsOf input ≠ []) :
    removeWsChars input.data ≠ [] := by
  intro hc
  rw [segmentsOf, hc, segmentsOfCleaned_nil] at h
  exact h rfl

theorem parse_shortcut (input : String) (tp : Int) (h0 : tp ≠ 0)
    (hsc : input.data = [] ∨ trimChars input.data = [] ∨ trimChars input.data = ['*']) :
    parsePageSelection input tp = ⟨List.range tp.toNat, none⟩ := by
  rw [parsePageSelection, if_neg h0, if_pos hsc]

theorem parse_no_segments (input : String) (tp : Int) (h0 : tp ≠ 0)
    (hsc : ¬(input.data = [] ∨ trimChars input.data = [] ∨ trimChars input.data = ['*']))
    (hseg : segmentsOf input = []) :
    parsePageSelection input tp = ⟨[], some "Enter at least one page number or range"⟩ := by
  rw [parsePageSelection, if_neg h0, if_neg hsc]
  show (if segmentsOf input = [] then
      (⟨[], some "Enter at least one page number or range"⟩ : ParseResult)
    else processSegments tp (segmentsOf input) []) = _
  rw [if_pos hseg]

theorem parse_main_path (input : String) (tp : Int) (h0 : tp ≠ 0)
    (h1 : segmentsOf input ≠ []) (h2 : trimChars input.data ≠ ['*']) :
    parsePageSelection input tp = processSegments tp (segmentsOf input) [] := by
  have hrw : removeWsChars input.data ≠ [] := removeWs_ne_nil_of_segments input h1
  have htrim : trimChars input.data ≠ [] := fun h =>
    hrw ((trimChars_eq_nil_iff input.data).mp h)
  have hdata : input.data ≠ [] := by
    intro h
    apply hrw
    rw [h]
    rfl
  rw [parsePageSelection, if_neg h0, if_neg (by push_neg; exact ⟨hdata, htrim, h2⟩)]
  show (if segmentsOf input = [] then
      (⟨[], some "Enter at least one page number or range"⟩ : ParseResult)
    else processSegments tp (segmentsOf input) []) = _
  rw [if_neg h1]

theorem star_segments (input : String) (h : trimChars input.data = ['*']) :
    segmentsOf input = [['*']] := by
  have hw : removeWsChars input.data = ['*'] := (trimChars_eq_star_iff input.data).mp h
  rw [segmentsOf, hw]
  decide

/-- Every run of the segment loop ends in an error with empty pages, or in a
sorted nonempty page list with no error. -/
theorem processSegments_shape (tp : Int) (segs : List (List Char)) : ∀ acc,
    (∃ msg, processSegments tp segs acc = ⟨[], some msg⟩) ∨
    (∃ acc2, acc2 ≠ [] ∧ processSegments tp segs acc = ⟨sortPages acc2, none⟩) := by
  induction segs with
  | nil =>
    intro acc
    by_cases h : acc.length = 0
    · refine Or.inl ⟨"No valid pages selected", ?_⟩
      simp only [processSegments]
      rw [if_pos h]
    · refine Or.inr ⟨acc, by simpa [List.length_eq_zero] using h, ?_⟩
      simp only [processSegments]
      rw [if_neg h]
  | cons seg rest ih =>
    intro acc
    by_cases hd : isDigitsSeg seg = true
    · by_cases hc : digitsToNat seg < 1 ∨ (digitsToNat seg : Int) > tp
      · refine Or.inl ⟨"Page " ++ toString (digitsToNat seg) ++ " is out of bounds", ?_⟩
        simp only [processSegments, hd, if_true]
        rw [if_pos hc]
      · have hstep : processSegments tp (seg :: rest) acc =
            processSegments tp rest (setAdd acc (digitsToNat seg - 1)) := by
          simp only [processSegments, hd, if_true]
          rw [if_neg hc]
        rw [hstep]
        exact ih _
    · rw [Bool.not_eq_true] at hd
      cases hr : rangeSplit seg with
      | none =>
        refine Or.inl ⟨"\x22" ++ seg.asString ++ "\x22 is not a valid page or range", ?_⟩
        simp only [processSegments, hd, Bool.false_eq_true, if_false, hr]
      | some ab =>
        obtain ⟨a, b⟩ := ab
        by_cases h1 : digitsToNat a > digitsToNat b
        · refine Or.inl
            ⟨"Range " ++ seg.asString ++ " is invalid (start greater than end)", ?_⟩
          simp only [processSegments, hd, Bool.false_eq_true, if_false, hr]
          rw [if_pos h1]
        · by_cases h2 : digitsToNat a < 1 ∨ (digitsToNat b : Int) > tp
          · refine Or.inl ⟨"Range " ++ seg.asString ++ " is out of bounds", ?_⟩
            simp only [processSegments, hd, Bool.false_eq_true, if_false, hr]
            rw [if_neg h1, if_pos h2]
          · have hstep : processSegments tp (seg :: rest) acc =
                processSegments tp rest (rangeAdd acc (digitsToNat a) (digitsToNat b)) := by
              simp only [processSegments, hd, Bool.false_eq_true, if_false, hr]
              rw [if_neg h1, if_neg h2]
            rw [hstep]
            exact ih _

/-- Two strings differ when they start with different characters, whatever
stands in the middle. -/
theorem append3_ne (p x q r : String) (c d : Char) (cp cr : List Char)
    (hp : p.data = c :: cp) (hr : r.data = d :: cr) (hcd : c ≠ d) :
    p ++ x ++ q ≠ r := by
  intro h
  have h2 := congrArg String.data h
  rw [String.data_append, String.data_append, hp, hr] at h2
  rw [List.cons_append, List.cons_append] at h2
  injection h2 with h3 h4
  exact hcd h3

theorem processSegments_no_valid_error (tp : Int) (segs : List (List Char)) : ∀ acc,
    segs ≠ [] ∨ acc ≠ [] →
    (processSegments tp segs acc).error ≠ some "No valid pages selected" := by
  induction segs with
  | nil =>
    intro acc h
    rcases h with h | h
    · exact absurd rfl h
    · have hstep : processSegments tp [] acc = ⟨sortPages acc, none⟩ := by
        simp only [processSegments]
        rw [if_neg (by simpa [List.length_eq_zero] using h)]
      rw [hstep]
      simp
  | cons seg rest ih =>
    intro acc h
    by_cases hd : isDigitsSeg seg = true
    · by_cases hc : digitsToNat seg < 1 ∨ (digitsToNat seg : Int) > tp
      · have hstep : processSegments tp (seg :: rest) acc =
            ⟨[], some ("Page " ++ toString (digitsToNat seg) ++ " is out of bounds")⟩ := by
          simp only [processSegments, hd, if_true]
          rw [if_pos hc]
        rw [hstep]
        simp only [Option.some.injEq, ne_eq]
        intro hmsg
        exact append3_ne "Page " (toString (digitsToNat seg)) " is out of bounds"
          "No valid pages selected" 'P' 'N' _ _ rfl rfl (by decide) hmsg
      · have hstep : processSegments tp (seg :: rest) acc =
            processSegments tp rest (setAdd acc (digitsToNat seg - 1)) := by
          simp only [processSegments, hd, if_true]
          rw [if_neg hc]
        rw [hstep]
        exact ih _ (Or.inr (setAdd_ne_nil acc _))
    · rw [Bool.not_eq_true] at hd
      cases hr : rangeSplit seg with
      | none =>
        have hstep : processSegments tp (seg :: rest) acc =
            ⟨[], some ("\x22" ++ seg.asString ++ "\x22 is not a valid page or range")⟩ := by
          simp only [processSegments, hd, Bool.false_eq_true, if_false, hr]
        rw [hstep]
        simp only [Option.some.injEq, ne_eq]
        intro hmsg
        exact append3_ne "\x22" seg.asString "\x22 is not a valid page or range"
          "No valid pages selected" '\x22' 'N' _ _ rfl rfl (by decide) hmsg
      | some ab =>
        obtain ⟨a, b⟩ := ab
        by_cases h1 : digitsToNat a > digitsToNat b
        · have hstep : processSegments tp (seg :: rest) acc =
              ⟨[], some ("Range " ++ seg.asString ++
                " is invalid (start greater than end)")⟩ := by
            simp only [processSegments, hd, Bool.false_eq_true, if_false, hr]
            rw [if_pos h1]
          rw [hstep]
          simp only [Option.some.injEq, ne_eq]
          intro hmsg
          exact append3_ne "Range " seg.asString " is invalid (start greater than end)"
            "No valid pages selected" 'R' 'N' _ _ rfl rfl (by decide) hmsg
        · by_cases h2 : digitsToNat a < 1 ∨ (digitsToNat b : Int) > tp
          · have hstep : processSegments tp (seg :: rest) acc =
                ⟨[], some ("Range " ++ seg.asString ++ " is out of bounds")⟩ := by
              simp only [processSegments, hd, Bool.false_eq_true, if_false, hr]
              rw [if_neg h1, if_pos h2]
            rw [hstep]
            simp only [Option.some.injEq, ne_eq]
            intro hmsg
            exact append3_ne "Range " seg.asString " is out of bounds"
              "No valid pages selected" 'R' 'N' _ _ rfl rfl (by decide) hmsg
          · have hstep : processSegments tp (seg :: rest) acc =
                processSegments tp rest (rangeAdd acc (digitsToNat a) (digitsToNat b)) := by
              simp only [processSegments, hd, Bool.false_eq_true, if_false, hr]
              rw [if_neg h1, if_neg h2]
            rw [hstep]
            refine ih _ (Or.inr ?_)
            rw [rangeAdd_eq_foldl]
            apply foldl_setAdd_ne_nil_of_ne
            simp only [ne_eq, List.map_eq_nil_iff]
            rw [List.range'_eq_nil]
            omega

/-! Claim theorems. -/

/-- C1: for a positive page count and an input whose derived comma-separated
segments are all well-formed (single pages in bounds, or ordered in-bounds
ranges) and nonempty, `parsePageSelection` succeeds with no error, and its
`pages` are a strictly ascending sequence containing exactly the 0-based
indices denoted by some segment (set semantics: duplicates collapse,
input order is irrelevant). -/
theorem C1_valid_segments (input : String) (tp : Int) (htp : 0 < tp)
    (hne : segmentsOf input ≠ [])
    (hwf : ∀ s ∈ segmentsOf input, wellFormedSeg tp s = true) :
    (parsePageSelection input tp).error = none ∧
    (parsePageSelection input tp).pages.Sorted (· < ·) ∧
    (∀ p, p ∈ (parsePageSelection input tp).pages ↔
      ∃ s ∈ segmentsOf input, p ∈ segPages s) := by
  have hstar : trimChars input.data ≠ ['*'] := by
    intro hst
    have hs := star_segments input hst
    have hw := hwf ['*'] (by rw [hs]; exact List.mem_singleton_self _)
    rw [wellFormedSeg_malformed tp ['*'] (by decide) (by decide)] at hw
    exact absurd hw (by simp)
  rw [parse_main_path input tp (by omega) hne hstar,
    processSegments_all_valid tp _ [] hwf]
  have hacc : (segmentsOf input).foldl addSeg [] ≠ [] := by
    cases hseg : segmentsOf input with
    | nil => exact absurd hseg hne
    | cons s rest =>
      rw [List.foldl_cons]
      exact foldl_addSeg_ne_nil rest _ (addSeg_ne_nil tp [] s (hwf s (by rw [hseg]; simp)))
  have hfin : processSegments tp [] ((segmentsOf input).foldl addSeg []) =
      ⟨sortPages ((segmentsOf input).foldl addSeg []), none⟩ := by
    simp only [processSegments]
    rw [if_neg (by simpa [List.length_eq_zero] using hacc)]
  rw [hfin]
  refine ⟨rfl, sorted_lt_sortPages _ (nodup_foldl_addSeg _ [] List.nodup_nil), ?_⟩
  intro p
  rw [mem_sortPages, mem_foldl_addSeg]
  simp

/-- Witness for C1 at the spec's example `parsePageSelection("1-3,5,7", 10)`. -/
theorem C1_witness :
    (parsePageSelection "1-3,5,7" 10).error = none ∧
    (parsePageSelection "1-3,5,7" 10).pages.Sorted (· < ·) ∧
    (∀ p, p ∈ (parsePageSelection "1-3,5,7" 10).pages ↔
      ∃ s ∈ segmentsOf "1-3,5,7", p ∈ segPages s) :=
  C1_valid_segments "1-3,5,7" 10 (by decide) (by decide) (by decide)

/-- C2: for every positive page count, an input that is empty, whitespace-only
or exactly the wildcard `*` after trimming succeeds with all indices
`0..totalPages-1` in ascending order and no error. -/
theorem C2_empty_or_wildcard (input : String) (tp : Int) (htp : 0 < tp)
    (h : input = "" ∨ (∀ c ∈ input.data, isWS c = true) ∨ trimChars input.data = ['*']) :
    parsePageSelection input tp = ⟨List.range tp.toNat, none⟩ := by
  apply parse_shortcut input tp (by omega)
  rcases h with h | h | h
  · exact Or.inl (by rw [h])
  · exact Or.inr (Or.inl ((trimChars_eq_nil_iff input.data).mpr
      ((removeWsChars_eq_nil_iff input.data).mpr h)))
  · exact Or.inr (Or.inr h)

/-- Witness for C2 at the empty input and at the wildcard. -/
theorem C2_witness :
    parsePageSelection "" 3 = ⟨[0, 1, 2], none⟩ ∧
    parsePageSelection "*" 3 = ⟨[0, 1, 2], none⟩ := by
  constructor
  · rw [C2_empty_or_wildcard "" 3 (by decide) (Or.inl rfl)]
    decide
  · rw [C2_empty_or_wildcard "*" 3 (by decide) (Or.inr (Or.inr (by decide)))]
    decide

/-- C3 counterexample: for the strictly negative page count -1 the JavaScript
falsy test `!totalPages` does not fire, so input "1" produces a bounds error,
not "Unknown page count"; the claim is false for negative totalPages. -/
theorem C3_counterexample :
    (-1 : Int) ≤ 0 ∧
    parsePageSelection "1" (-1) = ⟨[], some "Page 1 is out of bounds"⟩ ∧
    parsePageSelection "1" (-1) ≠ ⟨[], some "Unknown page count"⟩ :=
  ⟨by decide, by decide, by decide⟩

/-- C3 (amended): totalPages = 0 is the only integer page count the falsy
precondition check catches; there every input yields empty pages and the
error "Unknown page count". -/
theorem C3_zero_total (input : String) :
    parsePageSelection input 0 = ⟨[], some "Unknown page count"⟩ := by
  rw [parsePageSelection, if_pos rfl]

/-- Witness for the amended C3. -/
theorem C3_witness : parsePageSelection "5,1-2" 0 = ⟨[], some "Unknown page count"⟩ :=
  C3_zero_total "5,1-2"

/-- C4 counterexample: the input "*" consists of exactly one segment that
matches neither the single-page nor the range pattern, yet the parser
succeeds via the wildcard shortcut instead of returning the malformed-segment
error, so the claim fails as literally stated. -/
theorem C4_counterexample :
    segmentsOf "*" = [['*']] ∧ isDigitsSeg ['*'] = false ∧ rangeSplit ['*'] = none ∧
    parsePageSelection "*" 5 = ⟨[0, 1, 2, 3, 4], none⟩ :=
  ⟨by decide, by decide, by decide, by decide⟩

/-- When some derived segment is not the wildcard token, the trimmed input
cannot be the wildcard token either. -/
theorem not_wildcard_of_first_ne (input : String) (good : List (List Char))
    (seg : List Char) (rest : List (List Char))
    (hsegs : segmentsOf input = good ++ seg :: rest) (hne : seg ≠ ['*']) :
    trimChars input.data ≠ ['*'] := by
  intro h
  rw [star_segments input h] at hsegs
  cases good with
  | nil =>
    rw [List.nil_append] at hsegs
    injection hsegs with h1 h2
    exact hne h1.symm
  | cons g good2 =>
    rw [List.cons_append] at hsegs
    injection hsegs with h1 h2
    exact absurd h2.symm (by simp)

/-- C4 (amended): for an input that is not the wildcard/empty shortcut, if the
derived segments consist of well-formed ones followed by a first ill-formed
segment, the parse returns empty pages and the error message determined by
that leftmost invalid segment, regardless of the remaining segments. -/
theorem C4_first_invalid_wins (input : String) (tp : Int) (htp : 0 < tp)
    (hstar : trimChars input.data ≠ ['*'])
    (good : List (List Char)) (bad : List Char) (rest : List (List Char))
    (hsegs : segmentsOf input = good ++ bad :: rest)
    (hg : ∀ s ∈ good, wellFormedSeg tp s = true)
    (hb : wellFormedSeg tp bad = false) :
    parsePageSelection input tp = ⟨[], some (segError bad)⟩ := by
  have hne : segmentsOf input ≠ [] := by rw [hsegs]; simp
  rw [parse_main_path input tp (by omega) hne hstar, hsegs]
  exact processSegments_first_invalid tp good bad rest [] hg hb

/-- Witness for the amended C4 at the spec's example `parsePageSelection("abc", 5)`. -/
theorem C4_witness :
    parsePageSelection "abc" 5 = ⟨[], some "\x22abc\x22 is not a valid page or range"⟩ := by
  have h := C4_first_invalid_wins "abc" 5 (by decide) (by decide) [] ['a', 'b', 'c'] []
    (by decide) (by decide) (by decide)
  rw [h]
  decide

/-- C5: when the leftmost failing segment is a range `start-end`, the order
check `start > end` takes precedence (its error is reported even if the range
is also out of bounds), and otherwise a bounds violation `start < 1` or
`end > totalPages` reports the out-of-bounds range error; both failures return
empty pages. -/
theorem C5_range_error_precedence (input : String) (tp : Int) (htp : 0 < tp)
    (good : List (List Char)) (a b : List Char) (rest : List (List Char))
    (hsegs : segmentsOf input = good ++ (a ++ '-' :: b) :: rest)
    (hg : ∀ s ∈ good, wellFormedSeg tp s = true)
    (ha : isDigitsSeg a = true) (hb : isDigitsSeg b = true) :
    (digitsToNat a > digitsToNat b →
      parsePageSelection input tp = ⟨[], some ("Range " ++ (a ++ '-' :: b).asString ++
        " is invalid (start greater than end)")⟩) ∧
    (digitsToNat a ≤ digitsToNat b → digitsToNat a < 1 ∨ (digitsToNat b : Int) > tp →
      parsePageSelection input tp = ⟨[], some ("Range " ++ (a ++ '-' :: b).asString ++
        " is out of bounds")⟩) := by
  have hd : isDigitsSeg (a ++ '-' :: b) = false := by
    rw [Bool.eq_false_iff]
    intro hdig
    have hdash := ((isDigitsSeg_iff _).mp hdig).2 '-' (by simp)
    exact absurd hdash (by decide)
  have hr : rangeSplit (a ++ '-' :: b) = some (a, b) := rangeSplit_append a b ha hb
  have hanil : a ≠ [] := fun h => by rw [h] at ha; exact absurd ha (by decide)
  have hstar : trimChars input.data ≠ ['*'] := by
    apply not_wildcard_of_first_ne input good _ rest hsegs
    intro h
    have hlen := congrArg List.length h
    simp [List.length_append] at hlen
    have ha0 : a.length = 0 := by omega
    exact hanil (List.length_eq_zero.mp ha0)
  have hne : segmentsOf input ≠ [] := by rw [hsegs]; simp
  constructor
  · intro hab
    have hwf : wellFormedSeg tp (a ++ '-' :: b) = false := by
      rw [Bool.eq_false_iff]
      intro hw
      have hord := ((wellFormedSeg_range_iff tp _ a b hd hr).mp hw).1
      omega
    rw [parse_main_path input tp (by omega) hne hstar, hsegs,
      processSegments_first_invalid tp good _ rest [] hg hwf]
    simp [segError, hd, hr, hab]
  · intro hab hbound
    have hwf : wellFormedSeg tp (a ++ '-' :: b) = false := by
      rw [Bool.eq_false_iff]
      intro hw
      have hw2 := (wellFormedSeg_range_iff tp _ a b hd hr).mp hw
      rcases hbound with h1 | h2
      · omega
      · exact absurd hw2.2.2 (not_le.mpr h2)
    rw [parse_main_path input tp (by omega) hne hstar, hsegs,
      processSegments_first_invalid tp good _ rest [] hg hwf]
    simp [segError, hd, hr, not_lt.mpr hab]

/-- Witness for C5: "3-1" reports the order error, and "12-3" with
totalPages = 10 reports the order error rather than the bounds error. -/
theorem C5_witness :
    parsePageSelection "3-1" 10 =
      ⟨[], some "Range 3-1 is invalid (start greater than end)"⟩ ∧
    parsePageSelection "12-3" 10 =
      ⟨[], some "Range 12-3 is invalid (start greater than end)"⟩ := by
  constructor
  · have h := (C5_range_error_precedence "3-1" 10 (by decide) [] ['3'] ['1'] []
      (by decide) (by decide) (by decide) (by decide)).1 (by decide)
    rw [h]
    decide
  · have h := (C5_range_error_precedence "12-3" 10 (by decide) [] ['1', '2'] ['3'] []
      (by decide) (by decide) (by decide) (by decide)).1 (by decide)
    rw [h]
    decide

/-- C6: a leftmost failing segment that is a single page number N outside
`[1, totalPages]` makes the parse fail immediately with
"Page N is out of bounds" and empty pages. -/
theorem C6_single_page_out_of_bounds (input : String) (tp : Int) (htp : 0 < tp)
    (good : List (List Char)) (seg : List Char) (rest : List (List Char))
    (hsegs : segmentsOf input = good ++ seg :: rest)
    (hg : ∀ s ∈ good, wellFormedSeg tp s = true)
    (hd : isDigitsSeg seg = true)
    (hob : digitsToNat seg < 1 ∨ (digitsToNat seg : Int) > tp) :
    parsePageSelection input tp =
      ⟨[], some ("Page " ++ toString (digitsToNat seg) ++ " is out of bounds")⟩ := by
  have hstar : trimChars input.data ≠ ['*'] :=
    not_wildcard_of_first_ne input good seg rest hsegs
      (fun h => by rw [h] at hd; exact absurd hd (by decide))
  have hne : segmentsOf input ≠ [] := by rw [hsegs]; simp
  have hwf : wellFormedSeg tp seg = false := by
    rw [Bool.eq_false_iff]
    intro hw
    have hw2 := (wellFormedSeg_digits_iff tp seg hd).mp hw
    rcases hob with h1 | h2
    · omega
    · exact absurd hw2.2 (not_le.mpr h2)
  rw [parse_main_path input tp (by omega) hne hstar, hsegs,
    processSegments_first_invalid tp good seg rest [] hg hwf]
  simp [segError, hd]

/-- Witness for C6 at the spec's examples `parsePageSelection("0", 5)` and
`parsePageSelection("11", 10)`. -/
theorem C6_witness :
    parsePageSelection "0" 5 = ⟨[], some "Page 0 is out of bounds"⟩ ∧
    parsePageSelection "11" 10 = ⟨[], some "Page 11 is out of bounds"⟩ := by
  constructor
  · have h := C6_single_page_out_of_bounds "0" 5 (by decide) [] ['0'] [] (by decide)
      (by decide) (by decide) (Or.inl (by decide))
    rw [h]
    decide
  · have h := C6_single_page_out_of_bounds "11" 10 (by decide) [] ['1', '1'] [] (by decide)
      (by decide) (by decide) (Or.inr (by decide))
    rw [h]
    decide

/-- C7: for every input and positive page count, the returned `pages` list is
nonempty exactly when `error` is absent; every error path returns empty pages
and the shortcut and success paths return nonempty pages with no error. -/
theorem C7_pages_iff_no_error (input : String) (tp : Int) (htp : 0 < tp) :
    (parsePageSelection input tp).pages ≠ [] ↔
      (parsePageSelection input tp).error = none := by
  by_cases hsc : input.data = [] ∨ trimChars input.data = [] ∨ trimChars input.data = ['*']
  · rw [parse_shortcut input tp (by omega) hsc]
    simp [List.range_eq_nil]
    omega
  · by_cases hseg : segmentsOf input = []
    · rw [parse_no_segments input tp (by omega) hsc hseg]
      simp
    · push_neg at hsc
      rw [parse_main_path input tp (by omega) hseg hsc.2.2]
      rcases processSegments_shape tp (segmentsOf input) [] with ⟨msg, hm⟩ | ⟨acc2, hne2, hm⟩
      · rw [hm]
        simp
      · rw [hm]
        simp [sortPages_eq_nil_iff, hne2]

/-- Witness for C7 on a mixed valid selection. -/
theorem C7_witness :
    (parsePageSelection "5,1-2" 10).pages ≠ [] ↔
      (parsePageSelection "5,1-2" 10).error = none :=
  C7_pages_iff_no_error "5,1-2" 10 (by decide)

/-- C8: the defensive "No valid pages selected" branch is unreachable: for a
positive page count no input makes `parsePageSelection` return that error,
because every accepted segment adds at least one page to the set. -/
theorem C8_no_valid_pages_unreachable (input : String) (tp : Int) (htp : 0 < tp) :
    (parsePageSelection input tp).error ≠ some "No valid pages selected" := by
  by_cases hsc : input.data = [] ∨ trimChars input.data = [] ∨ trimChars input.data = ['*']
  · rw [parse_shortcut input tp (by omega) hsc]
    simp
  · by_cases hseg : segmentsOf input = []
    · rw [parse_no_segments input tp (by omega) hsc hseg]
      simp only [ne_eq, Option.some.injEq]
      intro h
      exact absurd h (by decide)
    · push_neg at hsc
      rw [parse_main_path input tp (by omega) hseg hsc.2.2]
      exact processSegments_no_valid_error tp (segmentsOf input) [] (Or.inl hseg)

/-- Witness for C8. -/
theorem C8_witness :
    (parsePageSelection "7" 9).error ≠ some "No valid pages selected" :=
  C8_no_valid_pages_unreachable "7" 9 (by decide)

/-- C9: digit segments with leading zeros are accepted at their base-10 value,
both as single pages ("007" selects page 7, index 6) and as range endpoints
("01-03" denotes the range 1-3). -/
theorem C9_leading_zeros (tp : Int) :
    (7 ≤ tp → parsePageSelection "007" tp = ⟨[6], none⟩) ∧
    (3 ≤ tp → parsePageSelection "01-03" tp = ⟨[0, 1, 2], none⟩) := by
  constructor
  · intro h7
    rw [parse_main_path "007" tp (by omega) (by decide) (by decide)]
    have hseg : segmentsOf "007" = [['0', '0', '7']] := by decide
    rw [hseg]
    have hwf : wellFormedSeg tp ['0', '0', '7'] = true := by
      rw [wellFormedSeg_digits_iff tp _ (by decide)]
      refine ⟨by decide, ?_⟩
      have hv : digitsToNat ['0', '0', '7'] = 7 := by decide
      rw [hv]
      exact_mod_cast h7
    rw [processSegments_cons_valid tp _ _ [] hwf]
    have hadd : addSeg [] ['0', '0', '7'] = [6] := by decide
    rw [hadd]
    simp only [processSegments]
    decide
  · intro h3
    rw [parse_main_path "01-03" tp (by omega) (by decide) (by decide)]
    have hseg : segmentsOf "01-03" = [['0', '1', '-', '0', '3']] := by decide
    rw [hseg]
    have hwf : wellFormedSeg tp ['0', '1', '-', '0', '3'] = true := by
      rw [wellFormedSeg_range_iff tp _ ['0', '1'] ['0', '3'] (by decide) (by decide)]
      refine ⟨by decide, by decide, ?_⟩
      have hv : digitsToNat ['0', '3'] = 3 := by decide
      rw [hv]
      exact_mod_cast h3
    rw [processSegments_cons_valid tp _ _ [] hwf]
    have hadd : addSeg [] ['0', '1', '-', '0', '3'] = [0, 1, 2] := by decide
    rw [hadd]
    simp only [processSegments]
    decide

/-- Witness for C9 at totalPages = 10. -/
theorem C9_witness :
    parsePageSelection "007" 10 = ⟨[6], none⟩ ∧
    parsePageSelection "01-03" 10 = ⟨[0, 1, 2], none⟩ :=
  ⟨(C9_leading_zeros 10).1 (by decide), (C9_leading_zeros 10).2 (by decide)⟩

theorem noWs_removeWsChars (l : List Char) : ∀ c ∈ removeWsChars l, isWS c = false := by
  intro c hc
  rw [removeWsChars, List.mem_filter] at hc
  simpa using hc.2

theorem removeWsChars_idem (l : List Char) :
    removeWsChars (removeWsChars l) = removeWsChars l :=
  List.filter_eq_self.mpr (by
    intro c hc
    simpa using noWs_removeWsChars l c hc)

/-- The shortcut test of the parser depends only on the whitespace-free part
of the input. -/
theorem shortcut_iff (l : List Char) :
    (l = [] ∨ trimChars l = [] ∨ trimChars l = ['*']) ↔
    (removeWsChars l = [] ∨ removeWsChars l = ['*']) := by
  constructor
  · rintro (h | h | h)
    · left
      rw [h]
      rfl
    · exact Or.inl ((trimChars_eq_nil_iff l).mp h)
    · exact Or.inr ((trimChars_eq_star_iff l).mp h)
  · rintro (h | h)
    · exact Or.inr (Or.inl ((trimChars_eq_nil_iff l).mpr h))
    · exact Or.inr (Or.inr ((trimChars_eq_star_iff l).mpr h))

/-- C10: the parse result is invariant under removing every whitespace
character from the input; in particular whitespace between digits
concatenates them, so "1 2" selects the single page 12 (index 11) whenever
totalPages is at least 12. -/
theorem C10_whitespace_invariance :
    (∀ (input : String) (tp : Int),
      parsePageSelection input tp =
        parsePageSelection (removeWsChars input.data).asString tp) ∧
    (∀ tp : Int, 12 ≤ tp → parsePageSelection "1 2" tp = ⟨[11], none⟩) := by
  constructor
  · intro input tp
    have hwdata : ((removeWsChars input.data).asString).data = removeWsChars input.data := rfl
    by_cases h0 : tp = 0
    · subst h0
      simp [parsePageSelection]
    · have hsc1 := shortcut_iff input.data
      have hsc2 := shortcut_iff ((removeWsChars input.data).asString).data
      rw [hwdata, removeWsChars_idem] at hsc2
      by_cases hc : removeWsChars input.data = [] ∨ removeWsChars input.data = ['*']
      · rw [parse_shortcut input tp h0 (hsc1.mpr hc),
          parse_shortcut (removeWsChars input.data).asString tp h0 (hsc2.mpr hc)]
      · have h1 : ¬(input.data = [] ∨ trimChars input.data = [] ∨
            trimChars input.data = ['*']) := fun h => hc (hsc1.mp h)
        have h2 : ¬(((removeWsChars input.data).asString).data = [] ∨
            trimChars ((removeWsChars input.data).asString).data = [] ∨
            trimChars ((removeWsChars input.data).asString).data = ['*']) :=
          fun h => hc (hsc2.mp h)
        have hsegEq : segmentsOf ((removeWsChars input.data).asString) = segmentsOf input := by
          rw [segmentsOf, segmentsOf, hwdata, removeWsChars_idem]
        by_cases hseg : segmentsOf input = []
        · rw [parse_no_segments input tp h0 h1 hseg,
            parse_no_segments (removeWsChars input.data).asString tp h0 h2
              (by rw [hsegEq, hseg])]
        · push_neg at h1 h2
          rw [parse_main_path input tp h0 hseg h1.2.2,
            parse_main_path (removeWsChars input.data).asString tp h0
              (by rw [hsegEq]; exact hseg) h2.2.2, hsegEq]
  · intro tp h12
    rw [parse_main_path "1 2" tp (by omega) (by decide) (by decide)]
    have hseg : segmentsOf "1 2" = [['1', '2']] := by decide
    rw [hseg]
    have hwf : wellFormedSeg tp ['1', '2'] = true := by
      rw [wellFormedSeg_digits_iff tp _ (by decide)]
      refine ⟨by decide, ?_⟩
      have hv : digitsToNat ['1', '2'] = 12 := by decide
      rw [hv]
      exact_mod_cast h12
    rw [processSegments_cons_valid tp _ _ [] hwf]
    have hadd : addSeg [] ['1', '2'] = [11] := by decide
    rw [hadd]
    simp only [processSegments]
    decide

/-- Witness for C10: removing the whitespace of " 1 , 2 " does not change the
parse, and "1 2" at totalPages = 15 selects page 12. -/
theorem C10_witness :
    parsePageSelection " 1 , 2 " 5 = parsePageSelection "1,2" 5 ∧
    parsePageSelection "1 2" 15 = ⟨[11], none⟩ := by
  constructor
  · have h := C10_whitespace_invariance.1 " 1 , 2 " 5
    have he : (removeWsChars (" 1 , 2 " : String).data).asString = "1,2" := by decide
    rw [he] at h
    exact h
  · exact C10_whitespace_invariance.2 15 (by decide)
